import Mathlib
set_option linter.unusedVariables false

/-!
Shallow embedding of the shellfu/muxer HTTP router core
(src/router.go, src/route.go, src/options.go).

Strings are modelled as lists of characters.  The Go code compiles each
registered path template to a regular expression with
Router.HandleRoute and matches request paths with
regexp.FindStringSubmatch (Route.match).  We embed that pipeline
faithfully in two stages, exactly as the source does:

1. the template rewriting performed by
   regexp.MustCompile(":([\\w-]+)").ReplaceAllStringFunc, which replaces
   every token of the form :name by the capturing group "([-\\w.]+)"
   while collecting the parameter names in order (replaceTokens below);
2. compilation of the resulting string "^" ++ rewritten ++ "$" into a
   small regular-expression AST (compileRegex) and a backtracking,
   greedy, leftmost-first matcher with capture groups (matchE / matchL),
   which is the submatch semantics Go's regexp package exhibits on the
   pattern subset that HandleRoute can produce.

The matcher and the parsers use an explicit fuel argument so that every
definition is structurally recursive and reduces inside the kernel; the
fuel bounds only the recursion depth and is chosen large enough for all
inputs (concrete evaluations below confirm sufficiency on every input a
claim mentions).
-/

abbrev Str := List Char

/-- Word character in the sense of RE2's backslash-w class:
ASCII letters, digits and underscore. -/
def isWordChar (c : Char) : Bool :=
  decide (('a'.toNat ≤ c.toNat ∧ c.toNat ≤ 'z'.toNat) ∨
    ('A'.toNat ≤ c.toNat ∧ c.toNat ≤ 'Z'.toNat) ∨
    ('0'.toNat ≤ c.toNat ∧ c.toNat ≤ '9'.toNat) ∨ c = '_')

/-- Characters admitted inside a template token :name, i.e. the
character class of the Go token pattern ":([\\w-]+)". -/
def tokenChar (c : Char) : Bool := isWordChar c || c == '-'

/-- One item of a regular-expression character class: either a plain
character or the backslash-w shorthand. -/
inductive ClsItem where
  | chr (c : Char)
  | word
deriving DecidableEq

/-- Membership of a character in a character class. -/
def inCls (items : List ClsItem) (c : Char) : Bool :=
  items.any (fun it =>
    match it with
    | .chr d => c == d
    | .word => isWordChar c)

/-- Regular-expression AST for the pattern subset that compiled route
patterns live in: literals, the dot, positive character classes, one
level of capturing groups, and the star / plus / question quantifiers on
atoms.  Everything outside this subset makes the parser fail. -/
inductive RElem where
  | lit (c : Char)
  | dot
  | cls (items : List ClsItem)
  | group (inner : List RElem)
  | star (a : RElem)
  | plus (a : RElem)
  | opt (a : RElem)

/-- Quantifiers are admitted on single-character atoms only.  Quantified
groups are rejected because Go keeps only the last iteration's capture
there, while this matcher would collect every iteration; no pattern a
route template can reach through HandleRoute quantifies a group. -/
def quantOk : RElem → Bool
  | .lit _ => true
  | .dot => true
  | .cls _ => true
  | _ => false

/-- Parse the body of a character class, after the opening bracket.
Returns the items and the input remaining after the closing bracket.
A leading hyphen is a literal hyphen (the only hyphen position the
generated class "[-\\w.]" uses); a hyphen anywhere else would be a
range, which this subset rejects. -/
def parseClsAux : Str → List ClsItem → Option (List ClsItem × Str)
  | [], _ => none
  | ']' :: rest, acc => some (acc.reverse, rest)
  | '\\' :: 'w' :: rest, acc => parseClsAux rest (.word :: acc)
  | '\\' :: _ :: _, _ => none
  | '\\' :: [], _ => none
  | '^' :: rest, acc => if acc.isEmpty then none else parseClsAux rest (.chr '^' :: acc)
  | '-' :: rest, acc => if acc.isEmpty then parseClsAux rest (.chr '-' :: acc) else none
  | c :: rest, acc => parseClsAux rest (.chr c :: acc)

/-- Parse the inside of a capturing group up to the closing parenthesis.
Nested groups, alternation, counted repetition and anchors are outside
the embedded subset. -/
def parseInner : Nat → Str → List RElem → Option (List RElem × Str)
  | 0, _, _ => none
  | _ + 1, [], _ => none
  | _ + 1, ')' :: rest, acc => some (acc.reverse, rest)
  | _ + 1, '(' :: _, _ => none
  | f + 1, '[' :: rest, acc =>
      match parseClsAux rest [] with
      | none => none
      | some (items, rest') => parseInner f rest' (.cls items :: acc)
  | f + 1, '\\' :: 'w' :: rest, acc => parseInner f rest (.cls [.word] :: acc)
  | f + 1, '\\' :: c :: rest, acc =>
      if isWordChar c then none else parseInner f rest (.lit c :: acc)
  | _ + 1, '\\' :: [], _ => none
  | f + 1, '.' :: rest, acc => parseInner f rest (.dot :: acc)
  | f + 1, '*' :: rest, acc =>
      match acc with
      | a :: acc' => if quantOk a then parseInner f rest (.star a :: acc') else none
      | [] => none
  | f + 1, '+' :: rest, acc =>
      match acc with
      | a :: acc' => if quantOk a then parseInner f rest (.plus a :: acc') else none
      | [] => none
  | f + 1, '?' :: rest, acc =>
      match acc with
      | a :: acc' => if quantOk a then parseInner f rest (.opt a :: acc') else none
      | [] => none
  | _ + 1, '|' :: _, _ => none
  | _ + 1, '\x7b' :: _, _ => none
  | _ + 1, '\x7d' :: _, _ => none
  | _ + 1, '^' :: _, _ => none
  | _ + 1, '$' :: _, _ => none
  | f + 1, c :: rest, acc => parseInner f rest (.lit c :: acc)

/-- Parse a full anchored pattern body: everything between the leading
caret and the final dollar of the string HandleRoute hands to
regexp.MustCompile. -/
def parseMain : Nat → Str → List RElem → Option (List RElem)
  | 0, _, _ => none
  | _ + 1, [], _ => none
  | _ + 1, '$' :: [], acc => some acc.reverse
  | _ + 1, '$' :: _ :: _, _ => none
  | _ + 1, ')' :: _, _ => none
  | f + 1, '(' :: rest, acc =>
      match parseInner f rest [] with
      | none => none
      | some (inner, rest') => parseMain f rest' (.group inner :: acc)
  | f + 1, '[' :: rest, acc =>
      match parseClsAux rest [] with
      | none => none
      | some (items, rest') => parseMain f rest' (.cls items :: acc)
  | f + 1, '\\' :: 'w' :: rest, acc => parseMain f rest (.cls [.word] :: acc)
  | f + 1, '\\' :: c :: rest, acc =>
      if isWordChar c then none else parseMain f rest (.lit c :: acc)
  | _ + 1, '\\' :: [], _ => none
  | f + 1, '.' :: rest, acc => parseMain f rest (.dot :: acc)
  | f + 1, '*' :: rest, acc =>
      match acc with
      | a :: acc' => if quantOk a then parseMain f rest (.star a :: acc') else none
      | [] => none
  | f + 1, '+' :: rest, acc =>
      match acc with
      | a :: acc' => if quantOk a then parseMain f rest (.plus a :: acc') else none
      | [] => none
  | f + 1, '?' :: rest, acc =>
      match acc with
      | a :: acc' => if quantOk a then parseMain f rest (.opt a :: acc') else none
      | [] => none
  | _ + 1, '|' :: _, _ => none
  | _ + 1, '\x7b' :: _, _ => none
  | _ + 1, '\x7d' :: _, _ => none
  | _ + 1, '^' :: _, _ => none
  | f + 1, c :: rest, acc => parseMain f rest (.lit c :: acc)

/-- Compile a regular-expression source string of the anchored form
"^" ++ body ++ "$" into the AST; this embeds regexp.MustCompile on the
strings Router.HandleRoute constructs. -/
def compileRegex (s : Str) : Option (List RElem) :=
  match s with
  | '^' :: rest => parseMain (s.length + 2) rest []
  | _ => none

/-- Backtracking preference: keep the first branch's result when it
succeeds, otherwise take the second.  This is the greedy,
leftmost-first alternative ordering of Go's submatch semantics. -/
def orAlt (a b : Option (List Str)) : Option (List Str) :=
  match a with
  | some x => some x
  | none => b

/-- Match a sequence of AST elements against the input in
continuation-passing style.  caps accumulates the capture groups
completed so far, in opening-parenthesis order; the continuation
receives the remaining input and the updated captures.  Quantifiers
are greedy and alternatives are tried longest-first, which on this
pattern subset yields the captures Go's regexp package reports. -/
def matchL : Nat → List RElem → Str → List Str →
    (Str → List Str → Option (List Str)) → Option (List Str)
  | 0, _, _, _, _ => none
  | _ + 1, [], s, caps, k => k s caps
  | f + 1, .lit c :: es, s, caps, k =>
      match s with
      | [] => none
      | c' :: s' => if c' = c then matchL f es s' caps k else none
  | f + 1, .dot :: es, s, caps, k =>
      match s with
      | [] => none
      | c' :: s' => if c' = '\n' then none else matchL f es s' caps k
  | f + 1, .cls items :: es, s, caps, k =>
      match s with
      | [] => none
      | c' :: s' => if inCls items c' then matchL f es s' caps k else none
  | f + 1, .group inner :: es, s, caps, k =>
      matchL f inner s caps
        (fun s' caps' => matchL f es s' (caps' ++ [s.take (s.length - s'.length)]) k)
  | f + 1, .star a :: es, s, caps, k =>
      orAlt (matchL f [a] s caps (fun s' caps' =>
               if s'.length < s.length then matchL f (.star a :: es) s' caps' k else none))
            (matchL f es s caps k)
  | f + 1, .plus a :: es, s, caps, k =>
      matchL f [a] s caps (fun s' caps' => matchL f (.star a :: es) s' caps' k)
  | f + 1, .opt a :: es, s, caps, k =>
      orAlt (matchL f [a] s caps (fun s' caps' => matchL f es s' caps' k))
            (matchL f es s caps k)

/-- Run a compiled pattern against a whole input string, returning the
list of captured substrings on success: this embeds
regexp.FindStringSubmatch on an anchored pattern (the full-match
element of Go's result is dropped, captures keep their order).
srcLen is the length of the pattern's source text and only sizes the
fuel. -/
def fullMatch (pat : List RElem) (srcLen : Nat) (s : Str) : Option (List Str) :=
  matchL ((4 * (srcLen + 4)) * (s.length + 4) + 16) pat s []
    (fun s' caps => if s' = [] then some caps else none)

/-- Capturing group text that HandleRoute substitutes for each template
token, i.e. the Go string literal "([-\\w.]+)". -/
def groupStr : Str := "([-\\w.]+)".data

/-- Fueled worker for replaceTokens; consumes at least one character per
step, so any fuel above the input length is sufficient.  A colon
followed by at least one token character starts a match of the token
pattern ":([\\w-]+)", whose (greedy) extent is the maximal token-character
run; any other character is copied verbatim. -/
def replaceGo : Nat → Str → Str × List Str
  | 0, _ => ([], [])
  | _ + 1, [] => ([], [])
  | f + 1, c :: rest =>
      if c = ':' ∧ rest.takeWhile tokenChar ≠ [] then
        (groupStr ++ (replaceGo f (rest.dropWhile tokenChar)).1,
         rest.takeWhile tokenChar :: (replaceGo f (rest.dropWhile tokenChar)).2)
      else
        (c :: (replaceGo f rest).1, (replaceGo f rest).2)

/-- Template rewriting of Router.HandleRoute: the scan of
regexp.MustCompile(":([\\w-]+)").ReplaceAllStringFunc over the template,
replacing every maximal token :name (name nonempty, over word
characters and hyphens) by the capturing group "([-\\w.]+)" and
collecting the names in order of appearance. -/
def replaceTokens (s : Str) : Str × List Str := replaceGo (s.length + 1) s

/-!
Data model: requests, parameter maps, routes, routers.

Router.ServeHTTP's context plumbing (context.WithValue with ParamsKey)
is modelled by an optional parameter map carried on the request; the
RouteContextKey entry (the matched-route pointer read only by
CurrentRoute, which no claim concerns) is not modelled.  The response
writer is modelled by the dispatch outcome: the two plain-text error
responses ServeHTTP writes itself are explicit constructors, and
everything a selected handler or the not-found handler writes is the
handler's return value, of an arbitrary result type α.
http.MaxBytesReader is modelled as a limit recorded on the request's
body: reading the body succeeds exactly when no more than the recorded
number of bytes is consumed.
-/

/-- Parameter map extracted from a path, embedding Go's
map[string]string: an association list where assignment overwrites the
existing key in place or appends a fresh one. -/
abbrev AssocMap := List (Str × Str)

/-- Map assignment m[k] = v with Go map semantics. -/
def setKey : AssocMap → Str → Str → AssocMap
  | [], k, v => [(k, v)]
  | (k', v') :: rest, k, v =>
      if k' = k then (k, v) :: rest else (k', v') :: setKey rest k v

/-- Loop body of Route.match: for i, name := range r.params,
params[name] = match[i+1].  Go would panic if the pattern had fewer
capture groups than parameter names; that is unreachable for routes
built by HandleRoute (every collected name inserts exactly one group),
and this embedding pads with the empty string there. -/
def buildParamsAux : List Str → List Str → AssocMap → AssocMap
  | [], _, m => m
  | n :: ns, c :: cs, m => buildParamsAux ns cs (setKey m n c)
  | n :: ns, [], m => buildParamsAux ns [] (setKey m n [])

/-- Zip the captured groups positionally with the stored parameter
names, building the parameter map of Route.match. -/
def buildParams (names caps : List Str) : AssocMap :=
  buildParamsAux names caps []

/-- HTTP request as the dispatcher observes it: method, URL host, URL
path, declared content length (-1 when unknown), body presence and
content, the MaxBytesReader limit currently wrapped around the body
(none when unwrapped), and the context value stored under ParamsKey. -/
structure Request where
  method : Str
  urlHost : Str
  path : Str
  contentLength : Int
  hasBody : Bool
  body : List Nat
  bodyLimit : Option Int
  ctxParams : Option AssocMap

/-- Dispatch outcome: the 413 and 405 plain-text error responses that
ServeHTTP writes directly, or the result produced by whichever handler
it ultimately invokes (a matched route's middleware-wrapped handler, or
the not-found handler). -/
inductive Outcome (α : Type) where
  | tooLarge
  | methodNotAllowed
  | result (a : α)
deriving DecidableEq

/-- Route (src/route.go): method, compiled path pattern, handler,
ordered parameter names and the original template.  The pattern is kept
both as the source string HandleRoute hands to regexp.MustCompile and
as its compiled AST. -/
structure Route (α : Type) where
  method : Str
  pathSrc : Str
  pattern : Option (List RElem)
  handler : Request → α
  params : List Str
  template : Str

/-- Route.match (src/route.go): run the compiled pattern over the path
with FindStringSubmatch; on failure return nil (none), on success zip
the captured groups with the parameter names into a fresh map. -/
def Route.matchPath {α : Type} (r : Route α) (p : Str) : Option AssocMap :=
  match r.pattern with
  | none => none
  | some pat =>
      match fullMatch pat r.pathSrc.length p with
      | none => none
      | some caps => some (buildParams r.params caps)

/-- Middleware: a handler-wrapping capability, func(http.Handler) http.Handler. -/
abbrev Mw (α : Type) := (Request → α) → Request → α

mutual
/-- Router (src/router.go): ordered route table, ordered middleware
list, subrouter collection keyed by host or path prefix, not-found
handler and body-size ceiling. -/
inductive Router (α : Type) : Type
  | mk (routes : List (Route α)) (middleware : List (Mw α))
       (subrouters : SubMap α) (notFoundHandler : Request → α)
       (maxRequestBodySize : Int) : Router α

/-- Subrouter collection, the map[string]*Router field, as a list of
key / child bindings. -/
inductive SubMap (α : Type) : Type
  | nil : SubMap α
  | cons (key : Str) (child : Router α) (rest : SubMap α) : SubMap α
end

def Router.routes {α : Type} : Router α → List (Route α)
  | .mk rs _ _ _ _ => rs

def Router.middleware {α : Type} : Router α → List (Mw α)
  | .mk _ mws _ _ _ => mws

def Router.subrouters {α : Type} : Router α → SubMap α
  | .mk _ _ subs _ _ => subs

def Router.notFoundHandler {α : Type} : Router α → Request → α
  | .mk _ _ _ nf _ => nf

def Router.maxRequestBodySize {α : Type} : Router α → Int
  | .mk _ _ _ _ m => m

/-- Lookup in the subrouter collection. -/
def SubMap.find {α : Type} : SubMap α → Str → Option (Router α)
  | .nil, _ => none
  | .cons key child rest, k => if key = k then some child else find rest k

/-- Insertion of a fresh binding into the subrouter collection. -/
def SubMap.add {α : Type} : SubMap α → Str → Router α → SubMap α
  | .nil, k, c => .cons k c .nil
  | .cons key child rest, k, c => .cons key child (add rest k c)

/-- NewRouter (src/router.go) with no options: default not-found
handler (http.NotFound, abstracted as a given handler value), empty
route table, fresh subrouter map, zero body ceiling. -/
def newRouter {α : Type} (nf : Request → α) : Router α :=
  .mk [] [] .nil nf 0

/-- Router.HandleRoute (src/router.go): rewrite the template's :name
tokens into capturing groups collecting the parameter names, compile
"^" ++ rewritten ++ "$", and append the new route to the route table. -/
def compileRoute {α : Type} (method path : Str) (handler : Request → α) :
    Route α :=
  let rw := replaceTokens path
  let src := '^' :: (rw.1 ++ ['$'])
  { method := method, pathSrc := src, pattern := compileRegex src,
    handler := handler, params := rw.2, template := path }

/-- Router.HandleRoute appends the compiled route to the route table;
the remaining fields are untouched. -/
def Router.handleRoute {α : Type} (r : Router α) (method path : Str)
    (handler : Request → α) : Router α :=
  .mk (r.routes ++ [compileRoute method path handler])
     r.middleware r.subrouters r.notFoundHandler r.maxRequestBodySize

/-- Router.Use (src/router.go): append the given middleware functions
to the ordered middleware list. -/
def Router.use {α : Type} (r : Router α) (mws : List (Mw α)) : Router α :=
  .mk r.routes (r.middleware ++ mws) r.subrouters r.notFoundHandler r.maxRequestBodySize

/-- WithNotFoundHandler (src/options.go) / direct assignment of the
NotFoundHandler field. -/
def Router.setNotFound {α : Type} (r : Router α) (nf : Request → α) : Router α :=
  .mk r.routes r.middleware r.subrouters nf r.maxRequestBodySize

/-- WithMaxRequestBodySize (src/options.go). -/
def Router.setMaxBody {α : Type} (r : Router α) (m : Int) : Router α :=
  .mk r.routes r.middleware r.subrouters r.notFoundHandler m

/-- Router.Subrouter (src/router.go): return the existing child for the
attribute value, or create one holding the parent's current
NotFoundHandler and a copy of the parent's current middleware list,
with empty route table and a fresh subrouter map, register it, and
return it.  The returned pair is (child, router after the call). -/
def Router.subrouter {α : Type} (r : Router α) (attrValue : Str) :
    Router α × Router α :=
  match r.subrouters.find attrValue with
  | some c => (c, r)
  | none =>
      let c : Router α := .mk [] r.middleware .nil r.notFoundHandler 0
      (c, .mk r.routes r.middleware (r.subrouters.add attrValue c)
            r.notFoundHandler r.maxRequestBodySize)

/-- Middleware chain construction at dispatch time: handler :=
route.handler; for i := len(middleware)-1; i >= 0; i-- { handler =
middleware[i](handler) } — the first-registered middleware ends up
outermost. -/
def buildChain {α : Type} : List (Mw α) → (Request → α) → Request → α
  | [], h => h
  | m :: rest, h => m (buildChain rest h)

/-- Params (src/router.go): read the ParamsKey context value; return
the stored map when present, an empty map otherwise. -/
def Params (req : Request) : AssocMap :=
  match req.ctxParams with
  | some m => m
  | none => []

/-- MaxBytesReader wrapping performed by the admission guard: record
the byte ceiling on the body (a second wrap keeps the tighter of the
two ceilings). -/
def wrapBody (req : Request) (m : Int) : Request :=
  let lim : Int :=
    match req.bodyLimit with
    | none => m
    | some k => min m k
  { req with bodyLimit := some lim }

/-- Reading the request body to completion through whatever limiting
reader wraps it: succeeds with the full body unless more than the
recorded ceiling would have to be consumed. -/
def readBody (req : Request) : Option (List Nat) :=
  match req.bodyLimit with
  | none => some req.body
  | some n => if (req.body.length : Int) ≤ n then some req.body else none

/-- Route-table scan of Router.ServeHTTP: walk the routes in
registration order; a route whose method differs from the request's
sets the method-mismatch flag and is skipped without a path test; the
first route whose method and path both match is selected, its parameter
map is stored in the request context, and the freshly built middleware
chain around its handler is invoked.  If the scan selects nothing, the
mismatch flag decides between 405 and the not-found handler. -/
def scanRoutes {α : Type} (mws : List (Mw α)) (nf : Request → α)
    (req : Request) : List (Route α) → Bool → Outcome α
  | [], mismatch => if mismatch then .methodNotAllowed else .result (nf req)
  | route :: rest, mismatch =>
      if route.method ≠ req.method then scanRoutes mws nf req rest true
      else
        match route.matchPath req.path with
        | none => scanRoutes mws nf req rest mismatch
        | some params =>
            .result (buildChain mws route.handler
              { req with ctxParams := some params })

mutual
/-- Router.ServeHTTP (src/router.go): body-size admission guard first
(413 when the declared length exceeds a positive ceiling, MaxBytesReader
wrap otherwise), then subrouter delegation, then the route-table scan. -/
def serveHTTP {α : Type} : Router α → Request → Outcome α
  | .mk rts mws subs nf maxB, req =>
      if maxB > 0 ∧ req.hasBody then
        if req.contentLength ≤ maxB then
          serveSubs rts mws nf subs (wrapBody req maxB)
        else .tooLarge
      else serveSubs rts mws nf subs req

/-- Subrouter probe of Router.ServeHTTP: the first child whose key
equals the request's URL host, or is a literal prefix of the request's
path (in which case the prefix is stripped from the path), receives the
request through its own full ServeHTTP and dispatch stops; when no
child claims the request, the router's own route table is scanned. -/
def serveSubs {α : Type} (rts : List (Route α)) (mws : List (Mw α))
    (nf : Request → α) : SubMap α → Request → Outcome α
  | .nil, req => scanRoutes mws nf req rts false
  | .cons key child rest, req =>
      if key = req.urlHost then serveHTTP child req
      else if key.isPrefixOf req.path then
        serveHTTP child { req with path := req.path.drop key.length }
      else serveSubs rts mws nf rest req
end

/-- Plain request constructor used by concrete scenarios: a bodyless
request with the given method and path. -/
def mkReq (method path : Str) : Request :=
  { method := method, urlHost := [], path := path, contentLength := 0,
    hasBody := false, body := [], bodyLimit := none, ctxParams := none }

/-- Head of a string fails the token-character test (or the string is
empty): the condition under which a token scan stops exactly there. -/
def headNonTok : Str → Prop
  | [] => True
  | c :: _ => tokenChar c = false

/-- Subrouter collection built from an explicit list of bindings, used
to quantify over the probe order in claims. -/
def SubMap.ofList {α : Type} : List (Str × Router α) → SubMap α
  | [] => .nil
  | (k, c) :: rest => .cons k c (ofList rest)

/-- Request as the claimed child sees it: unchanged on a host match,
path-prefix-stripped on a prefix match. -/
def delegated (key : Str) (req : Request) : Request :=
  if key = req.urlHost then req
  else { req with path := req.path.drop key.length }

/-- Configuration mutations a parent router may undergo after creating
a child: appending middleware via Use and replacing the
NotFoundHandler. -/
inductive ConfigOp (α : Type) where
  | useOp (mws : List (Mw α))
  | setNotFoundOp (nf : Request → α)

def applyOp {α : Type} (r : Router α) : ConfigOp α → Router α
  | .useOp mws => r.use mws
  | .setNotFoundOp nf => r.setNotFound nf

def applyOps {α : Type} (r : Router α) : List (ConfigOp α) → Router α
  | [] => r
  | op :: rest => applyOps (applyOp r op) rest

/-- Trace result type used by the middleware-order scenario: handlers
return the list of observed events. -/
def traceHandler : Request → List Str := fun _ => ["H".data]

/-- Middleware A of the middleware-order scenario: logs around the
inner handler. -/
def mwA : Mw (List Str) := fun h req => "A-in".data :: (h req ++ ["A-out".data])

/-- Middleware B of the middleware-order scenario. -/
def mwB : Mw (List Str) := fun h req => "B-in".data :: (h req ++ ["B-out".data])

/-- Whether the route's compiled pattern matches the path, with the
same engine Route.match runs. -/
def Route.patternAccepts {α : Type} (r : Route α) (p : Str) : Bool :=
  match r.pattern with
  | none => false
  | some pat => (fullMatch pat r.pathSrc.length p).isSome

theorem sanity_rt1 :
    replaceTokens "/users/:id".data = ("/users/([-\\w.]+)".data, ["id".data]) := by decide

theorem sanity_rt2 :
    replaceTokens "/validate/*".data = ("/validate/*".data, []) := by decide

theorem sanity_p1 :
    (compileRegex ("^/users/([-\\w.]+)$".data)).isSome = true := by decide

theorem sanity_m1 :
    (compileRegex ("^/users/([-\\w.]+)$".data)).bind
      (fun pat => fullMatch pat 20 "/users/42".data) = some ["42".data] := by decide

theorem sanity_m2 :
    (compileRegex ("^/users/([-\\w.]+)$".data)).bind
      (fun pat => fullMatch pat 20 "/users/".data) = none := by decide

theorem sanity_m3 :
    (compileRegex ("^/users/([-\\w.]+)$".data)).bind
      (fun pat => fullMatch pat 20 "/users/1/2".data) = none := by decide

theorem sanity_m4 :
    (compileRegex ("^/validate/*$".data)).bind
      (fun pat => fullMatch pat 14 "/validate/foo/bar".data) = none := by decide

theorem sanity_m5 :
    (compileRegex ("^/validate/*$".data)).bind
      (fun pat => fullMatch pat 14 "/validate".data) = some [] := by decide

theorem sanity_m6 :
    (compileRegex ("^([-\\w.]+)([-\\w.]+)$".data)).bind
      (fun pat => fullMatch pat 22 "abc".data) = some ["ab".data, "c".data] := by decide

theorem sanity_d1 :
    serveHTTP ((newRouter (fun _ => (none : Option AssocMap))).handleRoute
        "GET".data "/users/:id".data (fun req => some (Params req)))
      (mkReq "GET".data "/users/42".data) =
      .result (some [("id".data, "42".data)]) := by
  exact rfl

theorem sanity_d2 :
    serveHTTP ((newRouter (fun _ => (none : Option AssocMap))).handleRoute
        "GET".data "/validate/*".data (fun req => some (Params req)))
      (mkReq "GET".data "/validate/foo/bar".data) = .result none := by
  exact rfl

theorem sanity_d3 :
    serveHTTP ((newRouter (fun _ => (none : Option AssocMap))).handleRoute
        "POST".data "/x".data (fun req => some (Params req)))
      (mkReq "GET".data "/nothing".data) = .methodNotAllowed := by
  exact rfl

theorem sanity_d4 :
    (let p0 := newRouter (fun _ => (none : Option AssocMap))
     let pr := p0.subrouter "/api".data
     let child := (pr.1).handleRoute "GET".data "/users/:id".data
        (fun req => some (Params req))
     let parent := Router.mk (pr.2).routes (pr.2).middleware
        (SubMap.cons "/api".data child SubMap.nil) (pr.2).notFoundHandler
        (pr.2).maxRequestBodySize
     serveHTTP parent (mkReq "GET".data "/api/users/123".data)) =
      .result (some [("id".data, "123".data)]) := by
  exact rfl

/-!
Helper lemmas about the template rewriting, the route-table scan, the
subrouter probe and the configuration operations.
-/

theorem dropWhile_length_le (p : Char → Bool) (l : Str) :
    (l.dropWhile p).length ≤ l.length := by
  induction l with
  | nil => simp
  | cons c t ih =>
      rw [List.dropWhile_cons]
      split
      · exact Nat.le_trans ih (Nat.le_succ _)
      · simp

theorem replaceGo_irrel : ∀ (f g : Nat) (s : Str), s.length < f → s.length < g →
    replaceGo f s = replaceGo g s := by
  intro f
  induction f with
  | zero => intro g s hf hg; omega
  | succ f ih =>
      intro g s hf hg
      match g, s with
      | 0, s => omega
      | g + 1, [] => rfl
      | g + 1, c :: rest =>
          simp only [replaceGo]
          by_cases h : c = ':' ∧ rest.takeWhile tokenChar ≠ []
          · rw [if_pos h, if_pos h]
            have hlen := dropWhile_length_le tokenChar rest
            have hrec := ih g (rest.dropWhile tokenChar)
              (by simp at hf; omega) (by simp at hg; omega)
            rw [hrec]
          · rw [if_neg h, if_neg h]
            have hrec := ih g rest (by simp at hf; omega) (by simp at hg; omega)
            rw [hrec]

theorem takeWhile_span (p : Char → Bool) : ∀ (name suf : Str),
    (∀ c ∈ name, p c = true) →
    (∀ c t, suf = c :: t → p c = false) →
    (name ++ suf).takeWhile p = name ∧ (name ++ suf).dropWhile p = suf := by
  intro name
  induction name with
  | nil =>
      intro suf hall hsuf
      cases suf with
      | nil => exact ⟨rfl, rfl⟩
      | cons c t =>
          have hc : p c = false := hsuf c t rfl
          simp only [List.nil_append]
          rw [List.takeWhile_cons, List.dropWhile_cons]
          simp only [hc]
          exact ⟨by simp, by simp⟩
  | cons d name ih =>
      intro suf hall hsuf
      have hd : p d = true := hall d (by simp)
      have := ih suf (fun c hc => hall c (by simp [hc])) hsuf
      simp only [List.cons_append]
      rw [List.takeWhile_cons, List.dropWhile_cons]
      simp only [hd, if_pos]
      exact ⟨by rw [this.1], by rw [this.2]⟩

theorem replaceTokens_nil : replaceTokens [] = ([], []) := rfl

theorem replaceTokens_cons_plain (c : Char) (t : Str)
    (h : ¬(c = ':' ∧ t.takeWhile tokenChar ≠ [])) :
    replaceTokens (c :: t) = (c :: (replaceTokens t).1, (replaceTokens t).2) := by
  show replaceGo (t.length + 1 + 1) (c :: t) = _
  rw [replaceGo, if_neg h]
  rfl

theorem replaceTokens_token (name suf : Str) (hne : name ≠ [])
    (hall : ∀ c ∈ name, tokenChar c = true) (hsuf : headNonTok suf) :
    replaceTokens (':' :: (name ++ suf)) =
      (groupStr ++ (replaceTokens suf).1, name :: (replaceTokens suf).2) := by
  have hsuf2 : ∀ c t, suf = c :: t → tokenChar c = false := by
    intro c t h
    subst h
    exact hsuf
  have hspan := takeWhile_span tokenChar name suf hall hsuf2
  have hcond : (':' = ':' ∧ (name ++ suf).takeWhile tokenChar ≠ []) := by
    refine ⟨rfl, ?_⟩
    rw [hspan.1]
    exact hne
  show replaceGo ((name ++ suf).length + 1 + 1) (':' :: (name ++ suf)) = _
  rw [replaceGo, if_pos hcond, hspan.1, hspan.2]
  have hirr : replaceGo ((name ++ suf).length + 1) suf = replaceGo (suf.length + 1) suf := by
    apply replaceGo_irrel
    · simp
      omega
    · omega
  rw [hirr]
  rfl

theorem replaceTokens_decomp (pre name suf : Str) (hpre : ':' ∉ pre)
    (hne : name ≠ []) (hall : ∀ c ∈ name, tokenChar c = true)
    (hsuf : headNonTok suf) :
    replaceTokens (pre ++ ':' :: (name ++ suf)) =
      (pre ++ groupStr ++ (replaceTokens suf).1,
       name :: (replaceTokens suf).2) := by
  induction pre with
  | nil =>
      simp only [List.nil_append]
      rw [replaceTokens_token name suf hne hall hsuf]
  | cons c pre ih =>
      have hc : c ≠ ':' := by intro hcc; exact hpre (by simp [hcc])
      have hstep := replaceTokens_cons_plain c (pre ++ ':' :: (name ++ suf))
        (by intro hcon; exact hc hcon.1)
      simp only [List.cons_append]
      rw [hstep, ih (fun hm => hpre (by simp [hm]))]

theorem scanRoutes_nil {α : Type} (mws : List (Mw α)) (nf : Request → α)
    (req : Request) (b : Bool) :
    scanRoutes mws nf req [] b =
      if b then .methodNotAllowed else .result (nf req) := rfl

theorem scanRoutes_cons {α : Type} (mws : List (Mw α)) (nf : Request → α)
    (req : Request) (rt : Route α) (rest : List (Route α)) (b : Bool) :
    scanRoutes mws nf req (rt :: rest) b =
      if rt.method ≠ req.method then scanRoutes mws nf req rest true
      else
        match rt.matchPath req.path with
        | none => scanRoutes mws nf req rest b
        | some params =>
            .result (buildChain mws rt.handler
              { req with ctxParams := some params }) := rfl

theorem scan_select {α : Type} (mws : List (Mw α)) (nf : Request → α)
    (req : Request) :
    ∀ (before : List (Route α)) (rt : Route α) (after : List (Route α))
      (ps : AssocMap) (b : Bool),
    (∀ r' ∈ before, r'.method ≠ req.method ∨ r'.matchPath req.path = none) →
    rt.method = req.method → rt.matchPath req.path = some ps →
    scanRoutes mws nf req (before ++ rt :: after) b =
      .result (buildChain mws rt.handler { req with ctxParams := some ps }) := by
  intro before
  induction before with
  | nil =>
      intro rt after ps b hb hm hp
      rw [List.nil_append, scanRoutes_cons]
      rw [if_neg (by simp [hm])]
      rw [hp]
  | cons r0 rest ih =>
      intro rt after ps b hb hm hp
      rw [List.cons_append, scanRoutes_cons]
      rcases hb r0 (by simp) with h | h
      · rw [if_pos h]
        exact ih rt after ps true (fun r' hr' => hb r' (by simp [hr'])) hm hp
      · by_cases hmeq : r0.method ≠ req.method
        · rw [if_pos hmeq]
          exact ih rt after ps true (fun r' hr' => hb r' (by simp [hr'])) hm hp
        · rw [if_neg hmeq, h]
          exact ih rt after ps b (fun r' hr' => hb r' (by simp [hr'])) hm hp

theorem scan_nomatch {α : Type} (mws : List (Mw α)) (nf : Request → α)
    (req : Request) :
    ∀ (rts : List (Route α)) (b : Bool),
    (∀ r ∈ rts, r.method = req.method → r.matchPath req.path = none) →
    scanRoutes mws nf req rts b =
      if b = true ∨ ∃ r ∈ rts, r.method ≠ req.method then .methodNotAllowed
      else .result (nf req) := by
  intro rts
  induction rts with
  | nil =>
      intro b hns
      rw [scanRoutes_nil]
      cases b <;> simp
  | cons r0 rest ih =>
      intro b hns
      rw [scanRoutes_cons]
      by_cases hmeq : r0.method ≠ req.method
      · rw [if_pos hmeq]
        rw [ih true (fun r hr => hns r (by simp [hr]))]
        rw [if_pos (Or.inl rfl)]
        rw [if_pos (Or.inr ⟨r0, by simp, hmeq⟩)]
      · rw [if_neg hmeq]
        push_neg at hmeq
        rw [hns r0 (by simp) hmeq]
        rw [ih b (fun r hr => hns r (by simp [hr]))]
        by_cases hb : b = true ∨ ∃ r ∈ rest, r.method ≠ req.method
        · rw [if_pos hb]
          rcases hb with hb | ⟨r, hr, hrm⟩
          · rw [if_pos (Or.inl hb)]
          · rw [if_pos (Or.inr ⟨r, by simp [hr], hrm⟩)]
        · rw [if_neg hb]
          push_neg at hb
          rw [if_neg]
          push_neg
          refine ⟨hb.1, ?_⟩
          intro r hr
          rcases List.mem_cons.1 hr with h | h
          · rw [h]; exact hmeq
          · exact hb.2 r h

theorem serveHTTP_mk {α : Type} (rts : List (Route α)) (mws : List (Mw α))
    (subs : SubMap α) (nf : Request → α) (maxB : Int) (req : Request) :
    serveHTTP (Router.mk rts mws subs nf maxB) req =
      if maxB > 0 ∧ req.hasBody then
        if req.contentLength ≤ maxB then
          serveSubs rts mws nf subs (wrapBody req maxB)
        else .tooLarge
      else serveSubs rts mws nf subs req := rfl

theorem serveSubs_nil {α : Type} (rts : List (Route α)) (mws : List (Mw α))
    (nf : Request → α) (req : Request) :
    serveSubs rts mws nf SubMap.nil req = scanRoutes mws nf req rts false := rfl

theorem serveSubs_cons {α : Type} (rts : List (Route α)) (mws : List (Mw α))
    (nf : Request → α) (key : Str) (child : Router α) (rest : SubMap α)
    (req : Request) :
    serveSubs rts mws nf (SubMap.cons key child rest) req =
      (if key = req.urlHost then serveHTTP child req
       else if key.isPrefixOf req.path then
         serveHTTP child { req with path := req.path.drop key.length }
       else serveSubs rts mws nf rest req) := rfl

theorem serveSubs_first_claim {α : Type} (rts : List (Route α))
    (mws : List (Mw α)) (nf : Request → α) (req : Request) :
    ∀ (before : List (Str × Router α)) (key : Str) (child : Router α)
      (rest : List (Str × Router α)),
    (∀ kc ∈ before, kc.1 ≠ req.urlHost ∧ kc.1.isPrefixOf req.path = false) →
    (key = req.urlHost ∨ key.isPrefixOf req.path = true) →
    serveSubs rts mws nf (SubMap.ofList (before ++ (key, child) :: rest)) req =
      serveHTTP child (delegated key req) := by
  intro before
  induction before with
  | nil =>
      intro key child rest hb hc
      rw [List.nil_append]
      show serveSubs rts mws nf (SubMap.cons key child (SubMap.ofList rest)) req = _
      rw [serveSubs_cons]
      by_cases hh : key = req.urlHost
      · rw [if_pos hh]
        rw [delegated, if_pos hh]
      · rw [if_neg hh]
        rcases hc with hc | hc
        · exact absurd hc hh
        · rw [if_pos hc]
          rw [delegated, if_neg hh]
  | cons kc0 rest0 ih =>
      intro key child rest hb hc
      rw [List.cons_append]
      show serveSubs rts mws nf
        (SubMap.cons kc0.1 kc0.2 (SubMap.ofList (rest0 ++ (key, child) :: rest))) req = _
      rw [serveSubs_cons]
      have h0 := hb kc0 (by simp)
      rw [if_neg h0.1, h0.2]
      simp only [Bool.false_eq_true, if_false]
      exact ih key child rest (fun kc hkc => hb kc (by simp [hkc])) hc

theorem applyOp_subrouters {α : Type} (r : Router α) (op : ConfigOp α) :
    (applyOp r op).subrouters = r.subrouters := by
  cases op with
  | useOp mws => cases r; rfl
  | setNotFoundOp nf => cases r; rfl

theorem applyOps_subrouters {α : Type} :
    ∀ (ops : List (ConfigOp α)) (r : Router α),
    (applyOps r ops).subrouters = r.subrouters := by
  intro ops
  induction ops with
  | nil => intro r; rfl
  | cons op rest ih =>
      intro r
      show (applyOps (applyOp r op) rest).subrouters = _
      rw [ih (applyOp r op), applyOp_subrouters]

theorem subMap_find_add_fresh {α : Type} :
    ∀ (subs : SubMap α) (k : Str) (c : Router α),
    subs.find k = none → (subs.add k c).find k = some c
  | .nil, k, c, hf => by
      show SubMap.find (SubMap.cons k c SubMap.nil) k = some c
      rw [SubMap.find, if_pos rfl]
  | .cons key child rest, k, c, hf => by
      rw [SubMap.find] at hf
      by_cases hk : key = k
      · rw [if_pos hk] at hf
        exact absurd hf (by simp)
      · rw [if_neg hk] at hf
        show SubMap.find (SubMap.cons key child (rest.add k c)) k = some c
        rw [SubMap.find, if_neg hk]
        exact subMap_find_add_fresh rest k c hf

/-- C1: for every router and request, dispatch scans the route table in
registration order and selects the first route whose method equals the
request's method and whose compiled pattern matches the request's path,
invoking its handler exactly once (the outcome is the chain around that
route's handler applied to the one parameter-enriched request); when
two same-method routes both match, the earlier-registered one is
selected and a more specific later route is never preferred. -/
theorem muxer_C1 (α : Type) (mws : List (Mw α)) (nf : Request → α)
    (req : Request) (before : List (Route α)) (rt : Route α)
    (after : List (Route α)) (ps : AssocMap)
    (hb : ∀ r' ∈ before, r'.method ≠ req.method ∨ r'.matchPath req.path = none)
    (hm : rt.method = req.method) (hp : rt.matchPath req.path = some ps) :
    serveHTTP (Router.mk (before ++ rt :: after) mws SubMap.nil nf 0) req =
      .result (buildChain mws rt.handler { req with ctxParams := some ps }) := by
  rw [serveHTTP_mk, if_neg (by simp), serveSubs_nil]
  exact scan_select mws nf req before rt after ps false hb hm hp

/-- C1 witness: a POST route is skipped on method, the earlier of two
matching GET routes wins — the later, more specific literal route
/users/42 is not preferred over the earlier /users/:id. -/
theorem muxer_C1_witness :
    serveHTTP (Router.mk
        (compileRoute "POST".data "/users/:id".data (fun _ => (9 : Nat)) ::
         compileRoute "GET".data "/users/:id".data (fun _ => 1) ::
         [compileRoute "GET".data "/users/42".data (fun _ => 2)])
        [] SubMap.nil (fun _ => 0) 0)
      (mkReq "GET".data "/users/42".data) = .result 1 := by
  have h := muxer_C1 Nat [] (fun _ => 0) (mkReq "GET".data "/users/42".data)
    [compileRoute "POST".data "/users/:id".data (fun _ => (9 : Nat))]
    (compileRoute "GET".data "/users/:id".data (fun _ => 1))
    [compileRoute "GET".data "/users/42".data (fun _ => 2)]
    [("id".data, "42".data)]
    (by
      intro r' hr'
      simp only [List.mem_singleton] at hr'
      subst hr'
      left
      decide)
    (by decide)
    (by decide)
  exact h

/-- C2: when the scan selects no route, the outcome is 405 when at
least one scanned route's method differed from the request's
(independent of that route's path), and the notFoundHandler's response
otherwise. -/
theorem muxer_C2 (α : Type) (mws : List (Mw α)) (nf : Request → α)
    (rts : List (Route α)) (req : Request)
    (hnosel : ∀ r ∈ rts, r.method = req.method → r.matchPath req.path = none) :
    serveHTTP (Router.mk rts mws SubMap.nil nf 0) req =
      if ∃ r ∈ rts, r.method ≠ req.method then .methodNotAllowed
      else .result (nf req) := by
  rw [serveHTTP_mk, if_neg (by simp), serveSubs_nil]
  rw [scan_nomatch mws nf req rts false hnosel]
  simp

/-- C2 witness: a GET request against a single POST route whose path
matches nothing yields 405 even though no route's path matches the
request at all; with only method-matching routes the custom not-found
handler's response is produced instead. -/
theorem muxer_C2_witness :
    serveHTTP (Router.mk [compileRoute "POST".data "/x".data (fun _ => (1 : Nat))]
        [] SubMap.nil (fun _ => 7) 0)
      (mkReq "GET".data "/nothing".data) = .methodNotAllowed ∧
    serveHTTP (Router.mk [compileRoute "GET".data "/x".data (fun _ => (1 : Nat))]
        [] SubMap.nil (fun _ => 7) 0)
      (mkReq "GET".data "/nothing".data) = .result 7 := by
  constructor
  · rw [muxer_C2 Nat [] (fun _ => 7)
      [compileRoute "POST".data "/x".data (fun _ => (1 : Nat))]
      (mkReq "GET".data "/nothing".data)
      (by
        intro r hr hm
        simp only [List.mem_singleton] at hr
        subst hr
        exact absurd hm (by decide))]
    rw [if_pos ⟨compileRoute "POST".data "/x".data (fun _ => (1 : Nat)),
      by simp, by decide⟩]
  · rw [muxer_C2 Nat [] (fun _ => 7)
      [compileRoute "GET".data "/x".data (fun _ => (1 : Nat))]
      (mkReq "GET".data "/nothing".data)
      (by
        intro r hr hm
        simp only [List.mem_singleton] at hr
        subst hr
        decide)]
    rw [if_neg]
    intro hex
    rcases hex with ⟨r, hr, hrm⟩
    simp only [List.mem_singleton] at hr
    subst hr
    exact hrm (by decide)

/-- C4: behavior of the code at the claimed wildcard scenario.  The
claim (and the repository's own TestWildcardRoutes) expects a route
registered as /validate/* to match /validate/foo/bar and capture
{"path": "foo/bar"}.  The code contains no wildcard handling:
HandleRoute rewrites only :name tokens, so /validate/* becomes the
regular expression ^/validate/*$ (a star on the literal slash), which
collects no parameter names, fails to match /validate/foo/bar, and the
dispatch falls through to the not-found handler. -/
theorem muxer_C4_code_behavior :
    replaceTokens "/validate/*".data = ("/validate/*".data, []) ∧
    (compileRoute "GET".data "/validate/*".data
        (fun req => some (Params req))).params = [] ∧
    (compileRoute "GET".data "/validate/*".data
        (fun req => some (Params req))).matchPath "/validate/foo/bar".data = none ∧
    serveHTTP ((newRouter (fun _ => (none : Option AssocMap))).handleRoute
        "GET".data "/validate/*".data (fun req => some (Params req)))
      (mkReq "GET".data "/validate/foo/bar".data) = .result none := by
  refine ⟨by decide, by decide, by decide, ?_⟩
  exact rfl

/-- C5: before the router's own route table is consulted the children
are probed in order; the first child whose key equals the request's
host, or is a literal prefix of the request's path, receives the
request (prefix-stripped in the latter case) through its own full
dispatch, and the parent's routes, middleware and not-found handler
play no further part — the right-hand side mentions none of them. -/
theorem muxer_C5 (α : Type) (rts : List (Route α)) (mws : List (Mw α))
    (nf : Request → α) (req : Request)
    (before : List (Str × Router α)) (key : Str) (child : Router α)
    (rest : List (Str × Router α))
    (hb : ∀ kc ∈ before, kc.1 ≠ req.urlHost ∧ kc.1.isPrefixOf req.path = false)
    (hc : key = req.urlHost ∨ key.isPrefixOf req.path = true) :
    serveHTTP (Router.mk rts mws (SubMap.ofList (before ++ (key, child) :: rest))
        nf 0) req =
      serveHTTP child (delegated key req) := by
  rw [serveHTTP_mk, if_neg (by simp)]
  exact serveSubs_first_claim rts mws nf req before key child rest hb hc

/-- C5 witness: the parent delegates /api/users/123 to the child keyed
/api with the path rewritten to /users/123, the child's route /users/:id
answers with parameters {id: 123} while the parent's own matching route
is ignored; a child keyed by the request's host is likewise selected
with the path left intact. -/
theorem muxer_C5_witness :
    serveHTTP (Router.mk
        [compileRoute "GET".data "/api/users/123".data
          (fun _ => some ([("trap".data, [])] : AssocMap))]
        [] (SubMap.ofList [("/api".data,
          (newRouter (fun _ => (none : Option AssocMap))).handleRoute
            "GET".data "/users/:id".data (fun req => some (Params req)))])
        (fun _ => none) 0)
      (mkReq "GET".data "/api/users/123".data) =
      .result (some [("id".data, "123".data)]) ∧
    serveHTTP (Router.mk []
        [] (SubMap.ofList [("www.example.com".data,
          (newRouter (fun _ => (none : Option AssocMap))).handleRoute
            "GET".data "/anything".data (fun _ => some [("host".data, [])]))])
        (fun _ => none) 0)
      { mkReq "GET".data "/anything".data with urlHost := "www.example.com".data } =
      .result (some [("host".data, [])]) := by
  constructor
  · have h := muxer_C5 (Option AssocMap)
      [compileRoute "GET".data "/api/users/123".data
        (fun _ => some ([("trap".data, [])] : AssocMap))]
      [] (fun _ => none) (mkReq "GET".data "/api/users/123".data)
      [] "/api".data
      ((newRouter (fun _ => (none : Option AssocMap))).handleRoute
        "GET".data "/users/:id".data (fun req => some (Params req)))
      []
      (by intro kc hkc; exact absurd hkc (by simp))
      (Or.inr (by decide))
    exact h.trans rfl
  · have h := muxer_C5 (Option AssocMap) [] [] (fun _ => none)
      { mkReq "GET".data "/anything".data with urlHost := "www.example.com".data }
      [] "www.example.com".data
      ((newRouter (fun _ => (none : Option AssocMap))).handleRoute
        "GET".data "/anything".data (fun _ => some [("host".data, [])]))
      []
      (by intro kc hkc; exact absurd hkc (by simp))
      (Or.inl (by decide))
    exact h.trans rfl

/-- C6: Use only appends to the ordered middleware list (all other
router fields unchanged); the chain is built freshly at dispatch time
by wrapping the selected route's handler with middleware entries from
last-registered to first-registered, so each registered entry wraps the
chain of the entries after it; for a selected route the dispatch
outcome is exactly that chain applied once; concretely use(A, B) gives
the observed order A-in, B-in, handler, B-out, A-out. -/
theorem muxer_C6 :
    (∀ (α : Type) (r : Router α) (mws : List (Mw α)),
       (r.use mws).middleware = r.middleware ++ mws ∧
       (r.use mws).routes = r.routes ∧
       (r.use mws).subrouters = r.subrouters ∧
       (r.use mws).notFoundHandler = r.notFoundHandler ∧
       (r.use mws).maxRequestBodySize = r.maxRequestBodySize) ∧
    (∀ (α : Type) (m : Mw α) (rest : List (Mw α)) (h : Request → α),
       buildChain (m :: rest) h = m (buildChain rest h)) ∧
    (∀ (α : Type) (mws : List (Mw α)) (nf : Request → α) (req : Request)
       (before : List (Route α)) (rt : Route α) (after : List (Route α))
       (ps : AssocMap),
       (∀ r' ∈ before, r'.method ≠ req.method ∨ r'.matchPath req.path = none) →
       rt.method = req.method → rt.matchPath req.path = some ps →
       serveHTTP (Router.mk (before ++ rt :: after) mws SubMap.nil nf 0) req =
         .result (buildChain mws rt.handler { req with ctxParams := some ps })) ∧
    (∀ req : Request, buildChain [mwA, mwB] traceHandler req =
       ["A-in".data, "B-in".data, "H".data, "B-out".data, "A-out".data]) := by
  refine ⟨?_, ?_, ?_, ?_⟩
  · intro α r mws
    cases r
    exact ⟨rfl, rfl, rfl, rfl, rfl⟩
  · intro α m rest h
    rfl
  · intro α mws nf req before rt after ps hb hm hp
    rw [serveHTTP_mk, if_neg (by simp), serveSubs_nil]
    exact scan_select mws nf req before rt after ps false hb hm hp
  · intro req
    rfl

/-- C6 witness: a router with use(A, B) dispatching a matching request
produces the trace A-in, B-in, H, B-out, A-out. -/
theorem muxer_C6_witness :
    serveHTTP (Router.mk [compileRoute "GET".data "/t".data traceHandler]
        [mwA, mwB] SubMap.nil (fun _ => []) 0)
      (mkReq "GET".data "/t".data) =
      .result ["A-in".data, "B-in".data, "H".data, "B-out".data, "A-out".data] := by
  have h := muxer_C6.2.2.1 (List Str) [mwA, mwB] (fun _ => [])
    (mkReq "GET".data "/t".data) []
    (compileRoute "GET".data "/t".data traceHandler) [] []
    (by intro r' hr'; exact absurd hr' (by simp))
    (by decide)
    (by decide)
  exact h.trans rfl

/-- C7: with a positive body ceiling and a request carrying a body, a
declared length above the ceiling yields 413 immediately — the outcome
is tooLarge for every route table, middleware list and subrouter
collection, so no probing or matching can have occurred; otherwise the
request proceeds with the body wrapped by the limiting reader, and
reading that wrapped body back succeeds with the full body exactly when
it does not exceed the ceiling. -/
theorem muxer_C7 (α : Type) (rts : List (Route α)) (mws : List (Mw α))
    (subs : SubMap α) (nf : Request → α) (maxB : Int) (req : Request)
    (hpos : maxB > 0) (hbody : req.hasBody = true) :
    (req.contentLength > maxB →
       serveHTTP (Router.mk rts mws subs nf maxB) req = .tooLarge) ∧
    (req.contentLength ≤ maxB →
       serveHTTP (Router.mk rts mws subs nf maxB) req =
         serveSubs rts mws nf subs (wrapBody req maxB)) ∧
    (req.bodyLimit = none →
       (readBody (wrapBody req maxB) = some req.body ↔
         (req.body.length : Int) ≤ maxB)) := by
  refine ⟨?_, ?_, ?_⟩
  · intro hover
    rw [serveHTTP_mk, if_pos ⟨hpos, by simp [hbody]⟩,
      if_neg (by exact not_le.mpr hover)]
  · intro hunder
    rw [serveHTTP_mk, if_pos ⟨hpos, by simp [hbody]⟩, if_pos hunder]
  · intro hnone
    rw [wrapBody, hnone]
    simp only [readBody]
    by_cases hL : (req.body.length : Int) ≤ maxB
    · simp [hL]
    · simp [hL]

set_option maxRecDepth 16384 in
/-- C7 witness: with ceiling 1024 a POST declaring 1025 bytes is
rejected with 413 before any matching, while a POST of exactly 1024
bytes is dispatched normally and its handler reads the full body back
through the limiting reader. -/
theorem muxer_C7_witness :
    serveHTTP (Router.mk
        [compileRoute "POST".data "/upload".data (fun req => readBody req)]
        [] SubMap.nil (fun _ => none) 1024)
      { mkReq "POST".data "/upload".data with
          hasBody := true, contentLength := 1025,
          body := List.replicate 1025 0 } = .tooLarge ∧
    serveHTTP (Router.mk
        [compileRoute "POST".data "/upload".data (fun req => readBody req)]
        [] SubMap.nil (fun _ => none) 1024)
      { mkReq "POST".data "/upload".data with
          hasBody := true, contentLength := 1024,
          body := List.replicate 1024 0 } =
      .result (some (List.replicate 1024 0)) := by
  constructor
  · exact (muxer_C7 (Option (List Nat))
      [compileRoute "POST".data "/upload".data (fun req => readBody req)]
      [] SubMap.nil (fun _ => none) 1024
      { mkReq "POST".data "/upload".data with
          hasBody := true, contentLength := 1025,
          body := List.replicate 1025 0 }
      (by decide) rfl).1 (by decide)
  · have h := (muxer_C7 (Option (List Nat))
      [compileRoute "POST".data "/upload".data (fun req => readBody req)]
      [] SubMap.nil (fun _ => none) 1024
      { mkReq "POST".data "/upload".data with
          hasBody := true, contentLength := 1024,
          body := List.replicate 1024 0 }
      (by decide) rfl).2.1 (by decide)
    refine h.trans ?_
    rw [serveSubs_nil, scanRoutes_cons]
    rw [if_neg (by decide)]
    have hmp : (compileRoute "POST".data "/upload".data
        (fun req => readBody req)).matchPath
        (wrapBody { mkReq "POST".data "/upload".data with
          hasBody := true, contentLength := 1024,
          body := List.replicate 1024 0 } 1024).path = some [] := by
      have : (compileRoute "POST".data "/upload".data
          (fun req => readBody req)).matchPath "/upload".data = some [] := by decide
      exact this
    rw [hmp]
    have hread : readBody ({ wrapBody { mkReq "POST".data "/upload".data with
          hasBody := true, contentLength := 1024,
          body := List.replicate 1024 0 } 1024 with ctxParams := some ([] : AssocMap) }) =
        some (List.replicate 1024 0) := by
      simp [readBody, wrapBody, mkReq]
    exact congrArg Outcome.result hread

/-- C8: Subrouter returns the existing child for the key, or creates
one initialized with the parent's current notFoundHandler and current
middleware list, with empty route table, empty subrouter map and zero
body ceiling, and registers it under the key; after any later sequence
of parent mutations (appending middleware via Use, replacing the
not-found handler) the child registered under the key is still the
creation-time snapshot. -/
theorem muxer_C8 (α : Type) (p : Router α) (key : Str) :
    (∀ c0, p.subrouters.find key = some c0 → p.subrouter key = (c0, p)) ∧
    (p.subrouters.find key = none →
       ((p.subrouter key).1.middleware = p.middleware ∧
        (p.subrouter key).1.notFoundHandler = p.notFoundHandler ∧
        (p.subrouter key).1.routes = [] ∧
        (p.subrouter key).1.subrouters = SubMap.nil ∧
        (p.subrouter key).1.maxRequestBodySize = 0 ∧
        ∀ ops : List (ConfigOp α),
          ((applyOps (p.subrouter key).2 ops).subrouters).find key =
            some (p.subrouter key).1)) := by
  constructor
  · intro c0 h
    rw [Router.subrouter, h]
  · intro h
    rw [Router.subrouter, h]
    refine ⟨rfl, rfl, rfl, rfl, rfl, ?_⟩
    intro ops
    rw [applyOps_subrouters]
    exact subMap_find_add_fresh p.subrouters key _ h

/-- C8 witness: a concrete parent creates a child under /api carrying
the parent's middleware and not-found handler; after the parent
appends middleware and replaces its not-found handler, the child found
under /api is still the snapshot. -/
theorem muxer_C8_witness :
    (((Router.mk ([] : List (Route (List Str))) [mwA] SubMap.nil
        (fun _ => ["NF".data]) 0).subrouter "/api".data).1.middleware = [mwA]) ∧
    ((applyOps ((Router.mk ([] : List (Route (List Str))) [mwA] SubMap.nil
        (fun _ => ["NF".data]) 0).subrouter "/api".data).2
        [ConfigOp.useOp [mwB], ConfigOp.setNotFoundOp (fun _ => [])]).subrouters).find
      "/api".data =
      some ((Router.mk ([] : List (Route (List Str))) [mwA] SubMap.nil
        (fun _ => ["NF".data]) 0).subrouter "/api".data).1 := by
  have h := (muxer_C8 (List Str)
    (Router.mk ([] : List (Route (List Str))) [mwA] SubMap.nil
      (fun _ => ["NF".data]) 0) "/api".data).2 rfl
  exact ⟨h.1, h.2.2.2.2.2 [ConfigOp.useOp [mwB], ConfigOp.setNotFoundOp (fun _ => [])]⟩

/-- C9: the Params accessor is total — it returns the empty mapping
when the request context carries no parameter map, the stored mapping
otherwise, and in particular the mapping attached at match time. -/
theorem muxer_C9 (req : Request) :
    (req.ctxParams = none → Params req = []) ∧
    (∀ m, req.ctxParams = some m → Params req = m) ∧
    (∀ ps, Params { req with ctxParams := some ps } = ps) := by
  refine ⟨?_, ?_, ?_⟩
  · intro h
    rw [Params, h]
  · intro m h
    rw [Params, h]
  · intro ps
    rfl

/-- C9 witness: a request with no context mapping yields the empty
mapping, a stored mapping is returned as is. -/
theorem muxer_C9_witness :
    Params (mkReq "GET".data "/x".data) = [] ∧
    Params { mkReq "GET".data "/x".data with
      ctxParams := some [("id".data, "42".data)] } = [("id".data, "42".data)] := by
  exact ⟨(muxer_C9 (mkReq "GET".data "/x".data)).1 rfl,
    (muxer_C9 (mkReq "GET".data "/x".data)).2.2 [("id".data, "42".data)]⟩

/-- C10: Route.match returns a mapping exactly when the stored compiled
pattern matches the path (with the identical engine); a route with no
parameter names returns the empty — but present — mapping on success;
and the scan treats the absent mapping as the only no-match signal: a
method-matching route with any returned mapping, the empty one
included, is selected, while a route answering none is skipped. -/
theorem muxer_C10 (α : Type) :
    (∀ (rt : Route α) (p : Str), (rt.matchPath p).isSome = rt.patternAccepts p) ∧
    (∀ (rt : Route α) (p : Str), rt.params = [] →
       rt.matchPath p = none ∨ rt.matchPath p = some []) ∧
    (∀ (mws : List (Mw α)) (nf : Request → α) (req : Request)
       (rt : Route α) (rest : List (Route α)) (ps : AssocMap),
       rt.method = req.method → rt.matchPath req.path = some ps →
       scanRoutes mws nf req (rt :: rest) false =
         .result (buildChain mws rt.handler { req with ctxParams := some ps })) ∧
    (∀ (mws : List (Mw α)) (nf : Request → α) (req : Request)
       (rt : Route α) (rest : List (Route α)) (b : Bool),
       rt.matchPath req.path = none →
       scanRoutes mws nf req (rt :: rest) b =
         (if rt.method ≠ req.method then scanRoutes mws nf req rest true
          else scanRoutes mws nf req rest b)) := by
  refine ⟨?_, ?_, ?_, ?_⟩
  · intro rt p
    rw [Route.matchPath, Route.patternAccepts]
    cases hpat : rt.pattern with
    | none => rfl
    | some pat =>
        cases hm : fullMatch pat rt.pathSrc.length p with
        | none => simp [hm]
        | some caps => simp [hm]
  · intro rt p hparams
    rw [Route.matchPath]
    cases hpat : rt.pattern with
    | none => exact Or.inl rfl
    | some pat =>
        cases hm : fullMatch pat rt.pathSrc.length p with
        | none => exact Or.inl (by simp [hm])
        | some caps =>
            right
            simp [hm, hparams]
            rfl
  · intro mws nf req rt rest ps hm hp
    exact scan_select mws nf req [] rt rest ps false
      (by intro r' hr'; exact absurd hr' (by simp)) hm hp
  · intro mws nf req rt rest b hp
    rw [scanRoutes_cons, hp]

/-- C10 witness: a parameterless route (template without tokens)
matches with the empty mapping and is still selected, its handler
invoked. -/
theorem muxer_C10_witness :
    (compileRoute "GET".data "/health".data (fun _ => (5 : Nat))).matchPath
      "/health".data = some [] ∧
    scanRoutes [] (fun _ => 0) (mkReq "GET".data "/health".data)
      [compileRoute "GET".data "/health".data (fun _ => (5 : Nat))] false =
      .result 5 := by
  constructor
  · rcases (muxer_C10 Nat).2.1 (compileRoute "GET".data "/health".data
      (fun _ => (5 : Nat))) "/health".data (by decide) with h | h
    · exact absurd h (by decide)
    · exact h
  · have h := (muxer_C10 Nat).2.2.1 [] (fun _ => 0)
      (mkReq "GET".data "/health".data)
      (compileRoute "GET".data "/health".data (fun _ => (5 : Nat))) [] []
      (by decide) (by decide)
    exact h.trans rfl

/-- C3: template compilation and match round trip.  Every token of the
form :name (name nonempty over word characters and hyphens, extended
maximally) is replaced by the capturing group matching one or more of
word characters, hyphen and dot, its name collected in order;
compileRoute anchors the rewritten pattern between a leading caret and
a trailing dollar and stores the collected names; match zips the
engine's captured groups positionally with the stored names; and
concretely /users/:id against /users/42 yields exactly {"id": "42"}
while non-matching paths yield none. -/
theorem muxer_C3 :
    (∀ pre name suf : Str, ':' ∉ pre → name ≠ [] →
       (∀ c ∈ name, tokenChar c = true) → headNonTok suf →
       replaceTokens (pre ++ ':' :: (name ++ suf)) =
         (pre ++ groupStr ++ (replaceTokens suf).1,
          name :: (replaceTokens suf).2)) ∧
    (∀ (α : Type) (method path : Str) (handler : Request → α),
       (compileRoute method path handler).pathSrc =
         '^' :: ((replaceTokens path).1 ++ ['$']) ∧
       (compileRoute method path handler).pattern =
         compileRegex ('^' :: ((replaceTokens path).1 ++ ['$'])) ∧
       (compileRoute method path handler).params = (replaceTokens path).2 ∧
       (∀ (r : Router α), (r.handleRoute method path handler).routes =
          r.routes ++ [compileRoute method path handler])) ∧
    (∀ (α : Type) (rt : Route α) (p : Str) (pat : List RElem)
       (caps : List Str),
       rt.pattern = some pat →
       fullMatch pat rt.pathSrc.length p = some caps →
       rt.matchPath p = some (buildParams rt.params caps)) ∧
    ((compileRoute "GET".data "/users/:id".data
        (fun _ => (0 : Nat))).matchPath "/users/42".data =
      some [("id".data, "42".data)]) ∧
    ((compileRoute "GET".data "/users/:id".data
        (fun _ => (0 : Nat))).matchPath "/users/42/7".data = none) ∧
    ((compileRoute "GET".data "/users/:id".data
        (fun _ => (0 : Nat))).matchPath "/nope".data = none) := by
  refine ⟨?_, ?_, ?_, by decide, by decide, by decide⟩
  · intro pre name suf hpre hne hall hsuf
    exact replaceTokens_decomp pre name suf hpre hne hall hsuf
  · intro α method path handler
    exact ⟨rfl, rfl, rfl, fun r => rfl⟩
  · intro α rt p pat caps h1 h2
    rw [Route.matchPath, h1]
    simp [h2]

/-- C3 witness: the decomposition applied to the template /users/:id
gives exactly the rewritten pattern /users/([-\w.]+) with the single
collected name id. -/
theorem muxer_C3_witness :
    replaceTokens "/users/:id".data = ("/users/([-\\w.]+)".data, ["id".data]) := by
  have h := muxer_C3.1 "/users/".data "id".data []
    (by decide) (by decide) (by decide) trivial
  exact h.trans rfl
